import Mathlib

/-!
Verification of the control-law derivation script `src/app/rdd2/src/casadi/rdd2.py`.

The script builds symbolic control laws (CasADi expressions over the reals) for a
cascaded multirotor flight controller and hands them to a code generator.  Each
law is a pure real-valued function, which we embed here directly over `ℝ`:
3-vectors become the structure `Vec3`, quaternions the structure `Quat`,
`ca.if_else` becomes `if _ then _ else _`, and `ca.norm_2` the Euclidean norm.

The rotation-group operations (`SO3Quat`, `SO3EulerB321` from the external
`cyecca` library) are not part of this repository; they are modelled from the
spec's Orientation Representation contract (§4.1) using the standard Hamilton
quaternion and body-321 Euler formulas.
-/

namespace RDD2

open Real

/-! ## Parameters (module-level constants of rdd2.py) -/

noncomputable def thrust_delta : ℝ := 0.1
noncomputable def thrust_trim : ℝ := 0.5
noncomputable def deg2rad : ℝ := Real.pi / 180
noncomputable def g : ℝ := 9.8
noncomputable def kp_pos : ℝ := 0.2
noncomputable def kp_vel : ℝ := 1
noncomputable def kp_rollpitch : ℝ := 2
noncomputable def kp_yaw : ℝ := 2
noncomputable def yaw_rate_max : ℝ := 60
noncomputable def rollpitch_max : ℝ := 20
noncomputable def rollpitch_rate_max : ℝ := 60
noncomputable def kp_rollpitch_rate : ℝ := 0.015
noncomputable def ki_rollpitch_rate : ℝ := 0.05
noncomputable def kp_yaw_rate : ℝ := 0.1
noncomputable def ki_yaw_rate : ℝ := 0.02
noncomputable def vel_max : ℝ := 2.0
noncomputable def rollpitch_rate_integral_max : ℝ := 1.0
noncomputable def yaw_rate_integral_max : ℝ := 1.0

/-! ## 3-vectors (CasADi `SX` column vectors of size 3) -/

@[ext]
structure Vec3 where
  x : ℝ
  y : ℝ
  z : ℝ

namespace Vec3

noncomputable instance : Add Vec3 := ⟨fun a b => ⟨a.x + b.x, a.y + b.y, a.z + b.z⟩⟩
noncomputable instance : Sub Vec3 := ⟨fun a b => ⟨a.x - b.x, a.y - b.y, a.z - b.z⟩⟩
noncomputable instance : Neg Vec3 := ⟨fun a => ⟨-a.x, -a.y, -a.z⟩⟩
noncomputable instance : SMul ℝ Vec3 := ⟨fun c a => ⟨c * a.x, c * a.y, c * a.z⟩⟩

/-- Elementwise (Hadamard) product: CasADi `*` on same-shape vectors. -/
noncomputable def had (a b : Vec3) : Vec3 := ⟨a.x * b.x, a.y * b.y, a.z * b.z⟩

/-- `ca.cross` -/
noncomputable def cross (a b : Vec3) : Vec3 :=
  ⟨a.y * b.z - a.z * b.y, a.z * b.x - a.x * b.z, a.x * b.y - a.y * b.x⟩

/-- `ca.norm_2`: the Euclidean norm of a 3-vector. -/
noncomputable def norm2 (a : Vec3) : ℝ := Real.sqrt (a.x ^ 2 + a.y ^ 2 + a.z ^ 2)

/-- Componentwise interval membership `lo[i] ≤ v[i] ≤ hi[i]`. -/
def memIcc (v lo hi : Vec3) : Prop :=
  lo.x ≤ v.x ∧ v.x ≤ hi.x ∧ lo.y ≤ v.y ∧ v.y ≤ hi.y ∧ lo.z ≤ v.z ∧ v.z ≤ hi.z

end Vec3

/-! ## `saturate` (rdd2.py lines 43–50)

`y[i] = ca.if_else(x[i] > x_max[i], x_max[i], ca.if_else(x[i] < x_min[i], x_min[i], x[i]))`
applied to every component of a vector. -/

/-- One component of the `saturate` loop body. -/
noncomputable def sat (x lo hi : ℝ) : ℝ :=
  if x > hi then hi else if x < lo then lo else x

/-- `saturate(x, x_min, x_max)`: the elementwise loop over the 3 components. -/
noncomputable def saturate (v lo hi : Vec3) : Vec3 :=
  ⟨sat v.x lo.x hi.x, sat v.y lo.y hi.y, sat v.z lo.z hi.z⟩

/-! ## `derive_attitude_rate_control` (rdd2.py lines 285–327)

Inputs `omega, omega_r, omega_i : ℝ³`, `dt : ℝ`; outputs `(M, omega_i_update)`. -/

noncomputable def rate_kp : Vec3 := ⟨kp_rollpitch_rate, kp_rollpitch_rate, kp_yaw_rate⟩
noncomputable def rate_ki : Vec3 := ⟨ki_rollpitch_rate, ki_rollpitch_rate, ki_yaw_rate⟩
noncomputable def integral_max : Vec3 :=
  ⟨rollpitch_rate_integral_max, rollpitch_rate_integral_max, yaw_rate_integral_max⟩

noncomputable def attitude_rate_control (omega omega_r omega_i : Vec3) (dt : ℝ) :
    Vec3 × Vec3 :=
  let omega_e := omega_r - omega
  let omega_i_2 := saturate (omega_i + dt • omega_e) (-integral_max) integral_max
  (Vec3.had rate_kp omega_e + Vec3.had rate_ki omega_i_2, omega_i_2)

/-- The integral-state update with a constant rate error `e` and timestep `dt`:
one tick of the attitude-rate loop, keeping only the returned integral state. -/
noncomputable def rateIntegralStep (e : Vec3) (dt : ℝ) (x : Vec3) : Vec3 :=
  (attitude_rate_control ⟨0, 0, 0⟩ e x dt).2

/-! ## Quaternions and the rotation-group operations

Modelled from the spec: the `cyecca` rotation-group library (`SO3Quat`,
`SO3EulerB321`) is an external collaborator (spec §1, §4.1); its contract
`toEuler321 / fromEuler321 / compose / invert / log / toRotationMatrix /
fromRotationMatrix` is modelled here with the standard Hamilton unit-quaternion
and body-321 (yaw-pitch-roll) Euler formulas. -/

@[ext]
structure Quat where
  w : ℝ
  x : ℝ
  y : ℝ
  z : ℝ

namespace Quat

/-- Modelled from the spec: group composition `compose(q1,q2)` (§4.1), the
Hamilton quaternion product. -/
noncomputable def mul (a b : Quat) : Quat :=
  ⟨a.w * b.w - a.x * b.x - a.y * b.y - a.z * b.z,
   a.w * b.x + a.x * b.w + a.y * b.z - a.z * b.y,
   a.w * b.y - a.x * b.z + a.y * b.w + a.z * b.x,
   a.w * b.z + a.x * b.y - a.y * b.x + a.z * b.w⟩

/-- Modelled from the spec: group inversion `invert(q)` (§4.1); for a unit
quaternion the inverse is the conjugate. -/
noncomputable def inv (a : Quat) : Quat := ⟨a.w, -a.x, -a.y, -a.z⟩

/-- `a` represents a unit element of the rotation group (spec §3). -/
def IsUnit (a : Quat) : Prop := a.w ^ 2 + a.x ^ 2 + a.y ^ 2 + a.z ^ 2 = 1

end Quat

/-- `atan2 y x`: the two-argument arctangent used by the Euler extraction,
realized as the argument of the complex number `x + y i` (range `(-π, π]`). -/
noncomputable def atan2 (y x : ℝ) : ℝ := Complex.arg (x + y * Complex.I)

/-- Modelled from the spec: `log(q)`, the rotation-group logarithm map (§4.1),
returning the body-frame angular-displacement vector; guarded by an
`if_else` on the vector-part norm exactly as the symbolic substrate requires
branchless conditionals (spec §9). -/
noncomputable def quat_log (q : Quat) : Vec3 :=
  let nv := Real.sqrt (q.x ^ 2 + q.y ^ 2 + q.z ^ 2)
  let theta := 2 * atan2 nv q.w
  if nv > 1e-7 then (theta / nv) • (⟨q.x, q.y, q.z⟩ : Vec3)
  else (2 / q.w) • (⟨q.x, q.y, q.z⟩ : Vec3)

/-- Modelled from the spec: `fromEuler321(yaw,pitch,roll) -> q` (§4.1), the
composition `qz(yaw) ∘ qy(pitch) ∘ qx(roll)` of half-angle elementary
rotations, expanded to the standard closed form. -/
noncomputable def eulerB321_to_quat (yaw pitch roll : ℝ) : Quat :=
  let c1 := Real.cos (yaw / 2)
  let s1 := Real.sin (yaw / 2)
  let c2 := Real.cos (pitch / 2)
  let s2 := Real.sin (pitch / 2)
  let c3 := Real.cos (roll / 2)
  let s3 := Real.sin (roll / 2)
  ⟨c1 * c2 * c3 + s1 * s2 * s3,
   c1 * c2 * s3 - s1 * s2 * c3,
   c1 * s2 * c3 + s1 * c2 * s3,
   s1 * c2 * c3 - c1 * s2 * s3⟩

/-- Modelled from the spec: `toEuler321(q) -> (yaw,pitch,roll)` (§4.1), the
standard body-321 extraction. -/
noncomputable def quat_to_eulerB321 (q : Quat) : ℝ × ℝ × ℝ :=
  (atan2 (2 * (q.w * q.z + q.x * q.y)) (1 - 2 * (q.y ^ 2 + q.z ^ 2)),
   Real.arcsin (2 * (q.w * q.y - q.x * q.z)),
   atan2 (2 * (q.w * q.x + q.y * q.z)) (1 - 2 * (q.x ^ 2 + q.y ^ 2)))

/-! ## 3×3 matrices (for `to_Matrix` / `from_Matrix`) -/

@[ext]
structure Mat3 where
  m00 : ℝ
  m01 : ℝ
  m02 : ℝ
  m10 : ℝ
  m11 : ℝ
  m12 : ℝ
  m20 : ℝ
  m21 : ℝ
  m22 : ℝ

namespace Mat3

/-- Matrix–vector product `R @ v`. -/
noncomputable def mulVec (R : Mat3) (v : Vec3) : Vec3 :=
  ⟨R.m00 * v.x + R.m01 * v.y + R.m02 * v.z,
   R.m10 * v.x + R.m11 * v.y + R.m12 * v.z,
   R.m20 * v.x + R.m21 * v.y + R.m22 * v.z⟩

/-- `ca.horzcat(xB, yB, zB)`: the matrix whose columns are the three vectors. -/
noncomputable def ofCols (a b c : Vec3) : Mat3 :=
  ⟨a.x, b.x, c.x, a.y, b.y, c.y, a.z, b.z, c.z⟩

end Mat3

/-- Modelled from the spec: `toRotationMatrix(q)` (§4.1), the standard
direction-cosine matrix of a Hamilton quaternion. -/
noncomputable def Quat.to_Matrix (q : Quat) : Mat3 :=
  ⟨1 - 2 * (q.y ^ 2 + q.z ^ 2), 2 * (q.x * q.y - q.w * q.z), 2 * (q.x * q.z + q.w * q.y),
   2 * (q.x * q.y + q.w * q.z), 1 - 2 * (q.x ^ 2 + q.z ^ 2), 2 * (q.y * q.z - q.w * q.x),
   2 * (q.x * q.z - q.w * q.y), 2 * (q.y * q.z + q.w * q.x), 1 - 2 * (q.x ^ 2 + q.y ^ 2)⟩

/-- Modelled from the spec: `fromRotationMatrix(R) -> q` (§4.1), the standard
Shepperd branch structure selecting the numerically largest of the four
quaternion components. -/
noncomputable def Quat.from_Matrix (R : Mat3) : Quat :=
  let tr := R.m00 + R.m11 + R.m22
  if tr > 0 then
    let S := Real.sqrt (tr + 1) * 2
    ⟨S / 4, (R.m21 - R.m12) / S, (R.m02 - R.m20) / S, (R.m10 - R.m01) / S⟩
  else if R.m00 > R.m11 ∧ R.m00 > R.m22 then
    let S := Real.sqrt (1 + R.m00 - R.m11 - R.m22) * 2
    ⟨(R.m21 - R.m12) / S, S / 4, (R.m01 + R.m10) / S, (R.m02 + R.m20) / S⟩
  else if R.m11 > R.m22 then
    let S := Real.sqrt (1 + R.m11 - R.m00 - R.m22) * 2
    ⟨(R.m02 - R.m20) / S, (R.m01 + R.m10) / S, S / 4, (R.m12 + R.m21) / S⟩
  else
    let S := Real.sqrt (1 + R.m22 - R.m00 - R.m11) * 2
    ⟨(R.m10 - R.m01) / S, (R.m02 + R.m20) / S, (R.m12 + R.m21) / S, S / 4⟩

/-! ## `derive_attitude_control` (rdd2.py lines 246–282) -/

noncomputable def att_kp : Vec3 := ⟨kp_rollpitch, kp_rollpitch, kp_yaw⟩

/-- `omega = kp * (X.inverse() * X_r).log()` (elementwise gain). -/
noncomputable def attitude_control (q q_r : Quat) : Vec3 :=
  Vec3.had att_kp (quat_log (Quat.mul (Quat.inv q) q_r))

/-! ## `derive_position_control` (rdd2.py lines 330–417) -/

noncomputable def p_norm_max : ℝ := 0.3

/-- The candidate normalized thrust term
`p_term = -kp_pos * e_p/(2g) - kp_vel * e_v/(2g) + at_w/(2g)` (line 370). -/
noncomputable def pos_p_term (pt_w vt_w at_w p_w v_b : Vec3) (q_wb : Quat) : Vec3 :=
  let v_w := (q_wb.to_Matrix).mulVec v_b
  let e_p := p_w - pt_w
  let e_v := v_w - vt_w
  (-(kp_pos / (2 * g))) • e_p - (kp_vel / (2 * g)) • e_v + (1 / (2 * g)) • at_w

/-- `p_term = ca.if_else(p_norm > p_norm_max, p_norm_max*p_term/p_norm, p_term)`
(line 372): magnitude clamp by uniform rescaling. -/
noncomputable def pos_p_term_clamped (P : Vec3) : Vec3 :=
  if P.norm2 > p_norm_max then (p_norm_max / P.norm2) • P else P

/-- Trim throttle `T0 = zW / 2` (line 375). -/
noncomputable def T0 : Vec3 := ⟨0, 0, 1 / 2⟩

/-- Total thrust vector `T = p_term + T0` (line 377). -/
noncomputable def pos_T (pt_w vt_w at_w p_w v_b : Vec3) (q_wb : Quat) : Vec3 :=
  pos_p_term_clamped (pos_p_term pt_w vt_w at_w p_w v_b q_wb) + T0

/-- `zB = ca.if_else(nT > 1e-3, T/nT, zW)` (line 383): body-up axis with
world-up fallback for degenerate thrust. -/
noncomputable def zB_of (T : Vec3) : Vec3 :=
  if T.norm2 > 1e-3 then (1 / T.norm2) • T else ⟨0, 0, 1⟩

/-- The full `position_control` law: outputs `(nT, qr_wb)`. -/
noncomputable def position_control (pt_w vt_w at_w : Vec3) (qc_wb : Quat)
    (p_w v_b : Vec3) (q_wb : Quat) : ℝ × Quat :=
  let T := pos_T pt_w vt_w at_w p_w v_b q_wb
  let nT := T.norm2
  let zB := zB_of T
  let yt := (quat_to_eulerB321 qc_wb).1
  let xC : Vec3 := ⟨Real.cos yt, Real.sin yt, 0⟩
  let yB0 := Vec3.cross zB xC
  let nyB := yB0.norm2
  let yB := if nyB > 1e-3 then (1 / nyB) • yB0 else ⟨1, 0, 0⟩
  let xB := Vec3.cross yB zB
  let Rd_wb := Mat3.ofCols xB yB zB
  (nT, Quat.from_Matrix Rd_wb)

/-! ## `derive_joy_auto_level` (rdd2.py lines 88–130) -/

/-- The auto-level Euler setpoint `euler_r` (lines 111–114):
`(yaw + yaw_rate_max*deg2rad*joy_yaw, rollpitch_max*deg2rad*joy_pitch,
-rollpitch_max*deg2rad*joy_roll)`. -/
noncomputable def joy_auto_level_euler_r (joy_roll joy_pitch joy_yaw : ℝ)
    (q : Quat) : ℝ × ℝ × ℝ :=
  let yaw := (quat_to_eulerB321 q).1
  (yaw + yaw_rate_max * deg2rad * joy_yaw,
   rollpitch_max * deg2rad * joy_pitch,
   -rollpitch_max * deg2rad * joy_roll)

/-- The emitted `joy_auto_level` function: outputs `(q_r, thrust)`. -/
noncomputable def joy_auto_level (joy_roll joy_pitch joy_yaw joy_thrust : ℝ)
    (q : Quat) : Quat × ℝ :=
  let er := joy_auto_level_euler_r joy_roll joy_pitch joy_yaw q
  (eulerB321_to_quat er.1 er.2.1 er.2.2, joy_thrust * thrust_delta + thrust_trim)

/-! ## `derive_joy_position` (rdd2.py lines 133–196) -/

/-- The world-frame velocity command computed inside `derive_joy_position`
(lines 164–171): body velocities from pitch/roll stick rotated by current yaw,
stick thrust passed through vertically.  NOTE: these values are computed in the
script but do NOT appear in the output list of the emitted `joy_position`
function (lines 187–192). -/
noncomputable def joy_position_vw (joy_roll joy_pitch _joy_yaw joy_thrust : ℝ)
    (q : Quat) : Vec3 :=
  let yaw := (quat_to_eulerB321 q).1
  let vbx := vel_max * joy_pitch
  let vby := vel_max * joy_roll
  ⟨vbx * Real.cos yaw - vby * Real.sin yaw,
   vbx * Real.sin yaw + vby * Real.cos yaw,
   joy_thrust⟩

/-- The position-mode Euler setpoint `euler_r` (lines 177–180):
`(yaw + yaw_rate_max*joy_yaw, rollpitch_max*joy_pitch, -rollpitch_max*joy_roll)`
— unlike the auto-level law, NO `deg2rad` factor appears. -/
noncomputable def joy_position_euler_r (joy_roll joy_pitch joy_yaw : ℝ)
    (q : Quat) : ℝ × ℝ × ℝ :=
  let yaw := (quat_to_eulerB321 q).1
  (yaw + yaw_rate_max * joy_yaw,
   rollpitch_max * joy_pitch,
   -rollpitch_max * joy_roll)

/-- The emitted `joy_position` function: its outputs are only `(q_r, thrust)`
(lines 187–192) — the computed velocity commands are not emitted. -/
noncomputable def joy_position (joy_roll joy_pitch joy_yaw joy_thrust : ℝ)
    (q : Quat) : Quat × ℝ :=
  let er := joy_position_euler_r joy_roll joy_pitch joy_yaw q
  (eulerB321_to_quat er.1 er.2.1 er.2.2, joy_thrust * thrust_delta + thrust_trim)

/-! ## Function registry (`__main__`, rdd2.py lines 447–462)

The registry is the plain Python dict `eqs`, grown with `eqs.update(...)`:
`update` on a dict stores the value under the key, replacing any existing
binding for the same key without error. -/

/-- One registration step: Python `dict.update` semantics for a single
`name ↦ value` pair — replace in place if present, append otherwise. -/
def regUpdate {α : Type} (r : List (String × α)) (k : String) (v : α) :
    List (String × α) :=
  if ∃ p ∈ r, p.1 = k then
    r.map (fun p => if p.1 = k then (k, v) else p)
  else
    r ++ [(k, v)]

/-- Dict lookup. -/
def regLookup {α : Type} : List (String × α) → String → Option α
  | [], _ => none
  | p :: t, k => if p.1 = k then some p.2 else regLookup t k

/-- Bridge from `Vec3` to the Euclidean 3-space of Mathlib, used to import
norm inequalities for `norm2`. -/
noncomputable def toE3 (v : Vec3) : EuclideanSpace ℝ (Fin 3) := ![v.x, v.y, v.z]

/-! # Theorems -/

@[simp] theorem Vec3.add_def (a b : Vec3) :
    a + b = ⟨a.x + b.x, a.y + b.y, a.z + b.z⟩ := rfl

@[simp] theorem Vec3.sub_def (a b : Vec3) :
    a - b = ⟨a.x - b.x, a.y - b.y, a.z - b.z⟩ := rfl

@[simp] theorem Vec3.neg_def (a : Vec3) : -a = ⟨-a.x, -a.y, -a.z⟩ := rfl

@[simp] theorem Vec3.smul_def (c : ℝ) (a : Vec3) :
    c • a = ⟨c * a.x, c * a.y, c * a.z⟩ := rfl

/-! ## Helper lemmas about `sat` and `norm2` -/

theorem sat_mem {x lo hi : ℝ} (h : lo ≤ hi) : lo ≤ sat x lo hi ∧ sat x lo hi ≤ hi := by
  unfold sat
  split_ifs with h1 h2 <;> constructor <;> linarith

theorem sat_id {x lo hi : ℝ} (h1 : lo ≤ x) (h2 : x ≤ hi) : sat x lo hi = x := by
  unfold sat
  split_ifs with hh1 hh2 <;> linarith

theorem norm2_eq_norm (v : Vec3) : v.norm2 = ‖toE3 v‖ := by
  rw [EuclideanSpace.norm_eq]
  simp only [toE3, Vec3.norm2]
  norm_num [Fin.sum_univ_three, sq_abs]

theorem toE3_add (a b : Vec3) : toE3 (a + b) = toE3 a + toE3 b := by
  funext i
  fin_cases i <;> simp [toE3]

theorem norm2_nonneg (v : Vec3) : 0 ≤ v.norm2 := Real.sqrt_nonneg _

theorem norm2_add_le (a b : Vec3) : (a + b).norm2 ≤ a.norm2 + b.norm2 := by
  rw [norm2_eq_norm, norm2_eq_norm, norm2_eq_norm, toE3_add]
  exact norm_add_le _ _

theorem norm2_add_ge (a b : Vec3) : b.norm2 - a.norm2 ≤ (a + b).norm2 := by
  rw [norm2_eq_norm, norm2_eq_norm, norm2_eq_norm, toE3_add]
  have h1 : ‖toE3 b‖ = ‖(toE3 a + toE3 b) - toE3 a‖ := by rw [add_sub_cancel_left]
  have h2 := norm_sub_le (toE3 a + toE3 b) (toE3 a)
  rw [h1]
  linarith

theorem norm2_smul (c : ℝ) (v : Vec3) : (c • v).norm2 = |c| * v.norm2 := by
  simp only [Vec3.norm2, Vec3.smul_def]
  rw [show (c * v.x) ^ 2 + (c * v.y) ^ 2 + (c * v.z) ^ 2
        = c ^ 2 * (v.x ^ 2 + v.y ^ 2 + v.z ^ 2) by ring,
    Real.sqrt_mul (sq_nonneg c), Real.sqrt_sq_eq_abs]

theorem T0_norm2 : T0.norm2 = 1 / 2 := by
  simp only [T0, Vec3.norm2]
  rw [show (0:ℝ) ^ 2 + 0 ^ 2 + (1/2) ^ 2 = (1/2) ^ 2 by ring, Real.sqrt_sq]
  norm_num

/-! ## C5: `saturate` clamps into `[lower, upper]` and is the identity in range -/

/-- C5: for every vector `x` and bounds with `lower[i] ≤ upper[i]` for all `i`,
each component of `saturate(x, lower, upper)` lies in `[lower[i], upper[i]]`,
and the result is `x` itself whenever `x` is already within bounds. -/
theorem saturate_mem_and_id (v lo hi : Vec3)
    (h : lo.x ≤ hi.x ∧ lo.y ≤ hi.y ∧ lo.z ≤ hi.z) :
    (saturate v lo hi).memIcc lo hi ∧
      (v.memIcc lo hi → saturate v lo hi = v) := by
  obtain ⟨hx, hy, hz⟩ := h
  constructor
  · exact ⟨(sat_mem hx).1, (sat_mem hx).2, (sat_mem hy).1, (sat_mem hy).2,
      (sat_mem hz).1, (sat_mem hz).2⟩
  · rintro ⟨h1, h2, h3, h4, h5, h6⟩
    simp only [saturate, sat_id h1 h2, sat_id h3 h4, sat_id h5 h6]

/-- C5 witness at a concrete input. -/
theorem saturate_mem_and_id_witness :
    ((2:ℝ) ≤ 3 ∧ (-1:ℝ) ≤ 1 ∧ (0:ℝ) ≤ 5) ∧
      ((saturate ⟨7, 0, -2⟩ ⟨2, -1, 0⟩ ⟨3, 1, 5⟩).memIcc ⟨2, -1, 0⟩ ⟨3, 1, 5⟩ ∧
        (Vec3.memIcc ⟨7, 0, -2⟩ ⟨2, -1, 0⟩ ⟨3, 1, 5⟩ →
          saturate ⟨7, 0, -2⟩ ⟨2, -1, 0⟩ ⟨3, 1, 5⟩ = ⟨7, 0, -2⟩)) :=
  ⟨by norm_num, saturate_mem_and_id ⟨7, 0, -2⟩ ⟨2, -1, 0⟩ ⟨3, 1, 5⟩ (by norm_num)⟩

/-! ## C4: behaviour of `saturate` under violated bounds -/

/-- C4 counterexample: with `x = 5`, `lower = 2 > 1 = upper` in the first
component, `saturate` returns the UPPER bound `1`, not the lower bound `2`
claimed by the spec. -/
theorem saturate_violated_bounds_cex :
    (1:ℝ) < 2 ∧ saturate ⟨5, 0, 0⟩ ⟨2, 0, 0⟩ ⟨1, 0, 0⟩ = ⟨1, 0, 0⟩ ∧
      ((saturate ⟨5, 0, 0⟩ ⟨2, 0, 0⟩ ⟨1, 0, 0⟩).x ≠ 2) := by
  refine ⟨by norm_num, ?_, ?_⟩ <;> simp [saturate, sat]

/-- C4 amended: when `upper[i] < lower[i]`, `saturate` is still well defined
but clamps to `upper[i]` when `x[i] > upper[i]` and to `lower[i]` otherwise
(shown for the first component; the same scalar clamp `sat` is applied to
every component). -/
theorem saturate_violated_bounds (v lo hi : Vec3) (h : hi.x < lo.x) :
    saturate v lo hi = ⟨sat v.x lo.x hi.x, sat v.y lo.y hi.y, sat v.z lo.z hi.z⟩ ∧
      (hi.x < v.x → (saturate v lo hi).x = hi.x) ∧
      (v.x ≤ hi.x → (saturate v lo hi).x = lo.x) := by
  refine ⟨rfl, ?_, ?_⟩ <;> intro hv <;> simp only [saturate, sat]
  · rw [if_pos hv]
  · rw [if_neg (by linarith), if_pos (by linarith)]

/-- C4 (amended) witness at a concrete input. -/
theorem saturate_violated_bounds_witness :
    (1:ℝ) < 2 ∧
      (saturate ⟨5, 0, 0⟩ ⟨2, 0, 0⟩ ⟨1, 0, 0⟩
          = ⟨sat 5 2 1, sat 0 0 0, sat 0 0 0⟩ ∧
        ((1:ℝ) < 5 → (saturate ⟨5, 0, 0⟩ ⟨2, 0, 0⟩ ⟨1, 0, 0⟩).x = 1) ∧
        ((5:ℝ) ≤ 1 → (saturate ⟨5, 0, 0⟩ ⟨2, 0, 0⟩ ⟨1, 0, 0⟩).x = 2)) :=
  ⟨by norm_num, saturate_violated_bounds ⟨5, 0, 0⟩ ⟨2, 0, 0⟩ ⟨1, 0, 0⟩ (by norm_num)⟩

/-! ## C1: attitude-rate law form and anti-windup boundedness -/

theorem saturate_integral_mem (v : Vec3) :
    (saturate v (-integral_max) integral_max).memIcc (-integral_max) integral_max := by
  have hb : -(1.0:ℝ) ≤ 1.0 := by norm_num
  simp only [saturate, integral_max, rollpitch_rate_integral_max,
    yaw_rate_integral_max, Vec3.neg_def, Vec3.memIcc]
  exact ⟨(sat_mem hb).1, (sat_mem hb).2, (sat_mem hb).1, (sat_mem hb).2,
    (sat_mem hb).1, (sat_mem hb).2⟩

theorem rateIntegralStep_mem (e : Vec3) (dt : ℝ) (x : Vec3) :
    (rateIntegralStep e dt x).memIcc (-integral_max) integral_max := by
  simp only [rateIntegralStep, attitude_rate_control]
  exact saturate_integral_mem _

/-- C1: the attitude-rate law returns the integral state
`omega_i' = saturate(omega_i + e·dt, -bound, bound)` with bound `(1,1,1)`,
uses this already-saturated integral in `M = Kp⊙e + Ki⊙omega_i'`, every
component of the returned integral lies in `[-bound, bound]`, and iterating
the update with a constant error `e` and fixed `dt` stays in `[-bound, bound]`
forever. -/
theorem attitude_rate_antiwindup :
    (∀ omega omega_r omega_i : Vec3, ∀ dt : ℝ,
      (attitude_rate_control omega omega_r omega_i dt).2
          = saturate (omega_i + dt • (omega_r - omega)) (-integral_max) integral_max ∧
        (attitude_rate_control omega omega_r omega_i dt).1
          = Vec3.had rate_kp (omega_r - omega)
              + Vec3.had rate_ki (attitude_rate_control omega omega_r omega_i dt).2 ∧
        ((attitude_rate_control omega omega_r omega_i dt).2).memIcc
          (-integral_max) integral_max) ∧
      integral_max = ⟨1, 1, 1⟩ ∧
      (∀ e : Vec3, ∀ dt : ℝ, ∀ x : Vec3, ∀ n : ℕ, 1 ≤ n →
        ((rateIntegralStep e dt)^[n] x).memIcc (-integral_max) integral_max) := by
  refine ⟨fun omega omega_r omega_i dt => ⟨?_, ?_, ?_⟩, ?_, ?_⟩
  · rfl
  · rfl
  · simp only [attitude_rate_control]
    exact saturate_integral_mem _
  · simp only [integral_max, rollpitch_rate_integral_max,
      yaw_rate_integral_max, Vec3.mk.injEq]
    norm_num
  · intro e dt x n hn
    obtain ⟨k, rfl⟩ : ∃ k, n = k + 1 := ⟨n - 1, (Nat.succ_pred_eq_of_pos hn).symm⟩
    rw [Function.iterate_succ_apply']
    exact rateIntegralStep_mem e dt _

/-- C1 witness: one iteration from an out-of-range integral state is clamped
into the bound. -/
theorem attitude_rate_antiwindup_witness :
    1 ≤ 1 ∧
      ((rateIntegralStep ⟨0, 0, 0⟩ 0)^[1] ⟨2, -3, 0⟩).memIcc
        (-integral_max) integral_max :=
  ⟨le_refl 1,
    attitude_rate_antiwindup.2.2 ⟨0, 0, 0⟩ 0 ⟨2, -3, 0⟩ 1 (le_refl 1)⟩

/-! ## C6: degenerate-thrust fallback selects world-up -/

/-- C6: whenever the total thrust vector `T` has 2-norm at or below `1e-3`,
the body-up axis `zB = ca.if_else(nT > 1e-3, T/nT, zW)` used by
`position_control` resolves to world-up `(0,0,1)` rather than `T/nT`. -/
theorem zB_degenerate_fallback (T : Vec3) (h : T.norm2 ≤ 1e-3) :
    zB_of T = ⟨0, 0, 1⟩ := by
  unfold zB_of
  rw [if_neg (not_lt.mpr h)]

/-- C6 witness at the zero thrust vector. -/
theorem zB_degenerate_fallback_witness :
    Vec3.norm2 ⟨0, 0, 0⟩ ≤ 1e-3 ∧ zB_of ⟨0, 0, 0⟩ = ⟨0, 0, 1⟩ := by
  have h : Vec3.norm2 ⟨0, 0, 0⟩ ≤ 1e-3 := by
    simp only [Vec3.norm2]
    norm_num
  exact ⟨h, zB_degenerate_fallback ⟨0, 0, 0⟩ h⟩

/-! ## C10: duplicate registration in the function registry -/

/-- C10 counterexample: registering a second function under an
already-registered name does not fail — it silently replaces the earlier
entry (Python `dict.update` semantics), so afterwards the registry maps the
name to the NEW value. -/
theorem registry_duplicate_cex :
    regLookup (regUpdate (regUpdate ([] : List (String × Nat))
        "attitude_control" 1) "attitude_control" 2) "attitude_control"
      = some 2 := by rfl

/-- C10 amended: a registration under any name always succeeds (it is a total
operation with no failure path), and afterwards the registry maps that name to
the value just registered — a duplicate silently replaces the old entry. -/
theorem registry_update_total {α : Type} (r : List (String × α)) (k : String)
    (v : α) : regLookup (regUpdate r k v) k = some v := by
  induction r with
  | nil => simp [regUpdate, regLookup]
  | cons p t ih =>
    by_cases hp : p.1 = k
    · unfold regUpdate
      rw [if_pos ⟨p, List.mem_cons_self p t, hp⟩]
      simp [regLookup, hp]
    · by_cases ht : ∃ q ∈ t, q.1 = k
      · have hcond : ∃ q ∈ p :: t, q.1 = k := by
          obtain ⟨q, hq, hqk⟩ := ht
          exact ⟨q, List.mem_cons_of_mem p hq, hqk⟩
        unfold regUpdate
        rw [if_pos hcond]
        unfold regUpdate at ih
        rw [if_pos ht] at ih
        simp only [List.map_cons, if_neg hp, regLookup, ih]
      · have hcond : ¬∃ q ∈ p :: t, q.1 = k := by
          rintro ⟨q, hq, hqk⟩
          rcases List.mem_cons.mp hq with rfl | hq2
          · exact hp hqk
          · exact ht ⟨q, hq2, hqk⟩
        unfold regUpdate
        rw [if_neg hcond]
        unfold regUpdate at ih
        rw [if_neg ht] at ih
        simp only [List.cons_append, regLookup, if_neg hp]
        exact ih

/-! ## C7: magnitude clamp of the thrust term and bounded `nT` -/

theorem clamped_norm_le (P : Vec3) : (pos_p_term_clamped P).norm2 ≤ p_norm_max := by
  unfold pos_p_term_clamped
  split_ifs with h
  · have hmax : (0:ℝ) < p_norm_max := by norm_num [p_norm_max]
    have hP : 0 < P.norm2 := lt_trans hmax h
    rw [norm2_smul, abs_of_pos (div_pos hmax hP), div_mul_cancel₀ _ (ne_of_gt hP)]
  · exact le_of_not_lt h

theorem clamped_dir (P : Vec3) :
    ∃ c : ℝ, 0 < c ∧ pos_p_term_clamped P = c • P := by
  unfold pos_p_term_clamped
  split_ifs with h
  · have hmax : (0:ℝ) < p_norm_max := by norm_num [p_norm_max]
    exact ⟨p_norm_max / P.norm2, div_pos hmax (lt_trans hmax h), rfl⟩
  · refine ⟨1, one_pos, ?_⟩
    ext <;> simp

/-- C7: the clamp of the candidate thrust term rescales uniformly (keeping the
direction: the clamped value is a positive multiple of the candidate) so that
its 2-norm never exceeds the cap `0.3`; consequently the output thrust
magnitude `nT = |clamped term + (0,0,1/2)|` always lies in `[0.2, 0.8]`. -/
theorem position_thrust_bounds (pt_w vt_w at_w : Vec3) (qc_wb : Quat)
    (p_w v_b : Vec3) (q_wb : Quat) :
    (pos_p_term_clamped (pos_p_term pt_w vt_w at_w p_w v_b q_wb)).norm2
        ≤ p_norm_max ∧
      (∃ c : ℝ, 0 < c ∧
        pos_p_term_clamped (pos_p_term pt_w vt_w at_w p_w v_b q_wb)
          = c • pos_p_term pt_w vt_w at_w p_w v_b q_wb) ∧
      (position_control pt_w vt_w at_w qc_wb p_w v_b q_wb).1
        = (pos_T pt_w vt_w at_w p_w v_b q_wb).norm2 ∧
      0.2 ≤ (pos_T pt_w vt_w at_w p_w v_b q_wb).norm2 ∧
      (pos_T pt_w vt_w at_w p_w v_b q_wb).norm2 ≤ 0.8 := by
  have h2 := clamped_norm_le (pos_p_term pt_w vt_w at_w p_w v_b q_wb)
  rw [show p_norm_max = 0.3 by norm_num [p_norm_max]] at h2
  refine ⟨clamped_norm_le _, clamped_dir _, rfl, ?_, ?_⟩
  · have h1 := norm2_add_ge
      (pos_p_term_clamped (pos_p_term pt_w vt_w at_w p_w v_b q_wb)) T0
    rw [T0_norm2] at h1
    unfold pos_T
    linarith
  · have h1 := norm2_add_le
      (pos_p_term_clamped (pos_p_term pt_w vt_w at_w p_w v_b q_wb)) T0
    rw [T0_norm2] at h1
    unfold pos_T
    linarith

/-! ## Helper lemmas about `atan2` and Euler extraction -/

theorem atan2_zero_one : atan2 0 1 = 0 := by
  unfold atan2
  norm_num [Complex.arg_one]

theorem atan2_sin_cos {ψ : ℝ} (h : ψ ∈ Set.Ioc (-Real.pi) Real.pi) :
    atan2 (Real.sin ψ) (Real.cos ψ) = ψ := by
  unfold atan2
  rw [show ((Real.cos ψ : ℂ) + (Real.sin ψ : ℂ) * Complex.I)
        = Complex.cos ψ + Complex.sin ψ * Complex.I by
      rw [Complex.ofReal_cos, Complex.ofReal_sin]]
  exact Complex.arg_cos_add_sin_mul_I h

theorem yaw_mem_Ioc (q : Quat) :
    (quat_to_eulerB321 q).1 ∈ Set.Ioc (-Real.pi) Real.pi := by
  simp only [quat_to_eulerB321, atan2]
  exact Complex.arg_mem_Ioc _

/-- The Euler extraction of a pure-yaw quaternion `(w, 0, 0, z)`. -/
theorem euler_of_wz (w z : ℝ) :
    quat_to_eulerB321 ⟨w, 0, 0, z⟩
      = (atan2 (2 * (w * z)) (1 - 2 * z ^ 2), 0, 0) := by
  simp only [quat_to_eulerB321]
  norm_num [atan2_zero_one, Real.arcsin_zero]

theorem quat_id_euler : quat_to_eulerB321 ⟨1, 0, 0, 0⟩ = (0, 0, 0) := by
  rw [euler_of_wz]
  norm_num [atan2_zero_one]

/-! ## C8: attitude law zero-error -/

/-- C8: for any unit quaternion `q`, the attitude control law with identical
current and desired orientation returns the zero angular-velocity setpoint. -/
theorem attitude_control_zero_error (q : Quat) (h : q.IsUnit) :
    attitude_control q q = ⟨0, 0, 0⟩ := by
  have hq : Quat.mul (Quat.inv q) q = ⟨1, 0, 0, 0⟩ := by
    unfold Quat.IsUnit at h
    simp only [Quat.mul, Quat.inv, Quat.mk.injEq]
    refine ⟨by nlinarith, by ring, by ring, by ring⟩
  have hlog : quat_log ⟨1, 0, 0, 0⟩ = ⟨0, 0, 0⟩ := by
    simp only [quat_log]
    norm_num
  unfold attitude_control
  rw [hq, hlog]
  simp only [Vec3.had, mul_zero]

/-- C8 witness at the identity quaternion. -/
theorem attitude_control_zero_error_witness :
    Quat.IsUnit ⟨1, 0, 0, 0⟩ ∧ attitude_control ⟨1, 0, 0, 0⟩ ⟨1, 0, 0, 0⟩ = ⟨0, 0, 0⟩ :=
  ⟨by norm_num [Quat.IsUnit],
    attitude_control_zero_error ⟨1, 0, 0, 0⟩ (by norm_num [Quat.IsUnit])⟩

/-! ## C3: the position-hold stick mapping -/

/-- C3 evaluation at a failing input: with full forward stick
(`joy_pitch = 1`) and identity attitude, the position-mode orientation
setpoint pitches `20` (raw, radians — the `deg2rad` factor is missing in the
code) while the auto-level law pitches `20·π/180`; the two setpoints differ,
refuting the claimed equality of the two orientation-setpoint mappings. -/
theorem joy_position_missing_deg2rad :
    (joy_position_euler_r 0 1 0 ⟨1, 0, 0, 0⟩).2.1 = 20 ∧
      (joy_auto_level_euler_r 0 1 0 ⟨1, 0, 0, 0⟩).2.1 = 20 * (Real.pi / 180) ∧
      (20:ℝ) ≠ 20 * (Real.pi / 180) := by
  refine ⟨?_, ?_, ?_⟩
  · simp [joy_position_euler_r, rollpitch_max]
  · simp [joy_auto_level_euler_r, rollpitch_max, deg2rad]
  · intro hcontra
    nlinarith [Real.pi_lt_d2]

/-! ## C9: Euler ↔ quaternion round trip -/

theorem atan2_pos_mul {r : ℝ} (hr : 0 < r) (y x : ℝ) :
    atan2 (r * y) (r * x) = atan2 y x := by
  unfold atan2
  rw [show ((r * x : ℝ) : ℂ) + ((r * y : ℝ) : ℂ) * Complex.I
        = (r : ℂ) * ((x : ℂ) + (y : ℂ) * Complex.I) by push_cast; ring]
  exact Complex.arg_real_mul _ hr

/-- Polynomial identities between the components of the body-321 quaternion
(half-angle products) and the double-angle quantities used by the Euler
extraction. -/
theorem euler_comp_identities (c1 s1 c2 s2 c3 s3 : ℝ)
    (p1 : s1 ^ 2 + c1 ^ 2 = 1) (p2 : s2 ^ 2 + c2 ^ 2 = 1)
    (p3 : s3 ^ 2 + c3 ^ 2 = 1) :
    2 * ((c1 * c2 * c3 + s1 * s2 * s3) * (s1 * c2 * c3 - c1 * s2 * s3)
        + (c1 * c2 * s3 - s1 * s2 * c3) * (c1 * s2 * c3 + s1 * c2 * s3))
      = (2 * c2 ^ 2 - 1) * (2 * s1 * c1) ∧
    1 - 2 * ((c1 * s2 * c3 + s1 * c2 * s3) ^ 2
        + (s1 * c2 * c3 - c1 * s2 * s3) ^ 2)
      = (2 * c2 ^ 2 - 1) * (2 * c1 ^ 2 - 1) ∧
    2 * ((c1 * c2 * c3 + s1 * s2 * s3) * (c1 * s2 * c3 + s1 * c2 * s3)
        - (c1 * c2 * s3 - s1 * s2 * c3) * (s1 * c2 * c3 - c1 * s2 * s3))
      = 2 * s2 * c2 ∧
    2 * ((c1 * c2 * c3 + s1 * s2 * s3) * (c1 * c2 * s3 - s1 * s2 * c3)
        + (c1 * s2 * c3 + s1 * c2 * s3) * (s1 * c2 * c3 - c1 * s2 * s3))
      = (2 * c2 ^ 2 - 1) * (2 * s3 * c3) ∧
    1 - 2 * ((c1 * c2 * s3 - s1 * s2 * c3) ^ 2
        + (c1 * s2 * c3 + s1 * c2 * s3) ^ 2)
      = (2 * c2 ^ 2 - 1) * (2 * c3 ^ 2 - 1) := by
  refine ⟨?_, ?_, ?_, ?_, ?_⟩
  · linear_combination (2 * s1 * c1 * (2 * c2 ^ 2 - 1)) * p3
      - (2 * s1 * c1 * (s3 ^ 2 + c3 ^ 2)) * p2
  · linear_combination (-2 * c1 ^ 2) * p2 + (-2 * c2 ^ 2) * p1
      + (-2 * (c1 ^ 2 * s2 ^ 2 + s1 ^ 2 * c2 ^ 2)) * p3
  · linear_combination (2 * s2 * c2 * (s3 ^ 2 + c3 ^ 2)) * p1 + (2 * s2 * c2) * p3
  · linear_combination (2 * s3 * c3 * (2 * c2 ^ 2 - 1)) * p1
      - (2 * s3 * c3 * (s1 ^ 2 + c1 ^ 2)) * p2
  · linear_combination (-2 * c2 ^ 2) * p3 + (-2 * c3 ^ 2) * p2
      + (-2 * (c2 ^ 2 * s3 ^ 2 + s2 ^ 2 * c3 ^ 2)) * p1

/-- C9: for every `(yaw, pitch, roll)` with `yaw, roll ∈ (-π, π]` and `pitch`
strictly inside `(-π/2, π/2)` (away from the gimbal-lock singularity),
converting to a quaternion and back reproduces the input exactly. -/
theorem euler_quat_roundtrip (yaw pitch roll : ℝ)
    (hy : yaw ∈ Set.Ioc (-Real.pi) Real.pi)
    (hp : pitch ∈ Set.Ioo (-(Real.pi / 2)) (Real.pi / 2))
    (hr : roll ∈ Set.Ioc (-Real.pi) Real.pi) :
    quat_to_eulerB321 (eulerB321_to_quat yaw pitch roll) = (yaw, pitch, roll) := by
  have hcp : 0 < Real.cos pitch := Real.cos_pos_of_mem_Ioo hp
  have hsy : Real.sin yaw = 2 * Real.sin (yaw / 2) * Real.cos (yaw / 2) := by
    rw [← Real.sin_two_mul]
    congr 1
    ring
  have hcy : Real.cos yaw = 2 * Real.cos (yaw / 2) ^ 2 - 1 := by
    rw [← Real.cos_two_mul]
    congr 1
    ring
  have hsp : Real.sin pitch = 2 * Real.sin (pitch / 2) * Real.cos (pitch / 2) := by
    rw [← Real.sin_two_mul]
    congr 1
    ring
  have hcpit : Real.cos pitch = 2 * Real.cos (pitch / 2) ^ 2 - 1 := by
    rw [← Real.cos_two_mul]
    congr 1
    ring
  have hsr : Real.sin roll = 2 * Real.sin (roll / 2) * Real.cos (roll / 2) := by
    rw [← Real.sin_two_mul]
    congr 1
    ring
  have hcr : Real.cos roll = 2 * Real.cos (roll / 2) ^ 2 - 1 := by
    rw [← Real.cos_two_mul]
    congr 1
    ring
  obtain ⟨eA, eB, eC, eD, eE⟩ :=
    euler_comp_identities (Real.cos (yaw / 2)) (Real.sin (yaw / 2))
      (Real.cos (pitch / 2)) (Real.sin (pitch / 2))
      (Real.cos (roll / 2)) (Real.sin (roll / 2))
      (Real.sin_sq_add_cos_sq _) (Real.sin_sq_add_cos_sq _)
      (Real.sin_sq_add_cos_sq _)
  simp only [quat_to_eulerB321, eulerB321_to_quat, Prod.mk.injEq]
  refine ⟨?_, ?_, ?_⟩
  · rw [eA, eB, ← hsy, ← hcy, ← hcpit, atan2_pos_mul hcp, atan2_sin_cos hy]
  · rw [eC, ← hsp, Real.arcsin_sin (by linarith [hp.1]) (by linarith [hp.2])]
  · rw [eD, eE, ← hsr, ← hcr, ← hcpit, atan2_pos_mul hcp, atan2_sin_cos hr]

/-- C9 witness at `(yaw, pitch, roll) = (0, 0, 0)`. -/
theorem euler_quat_roundtrip_witness :
    ((0:ℝ) ∈ Set.Ioc (-Real.pi) Real.pi ∧
        (0:ℝ) ∈ Set.Ioo (-(Real.pi / 2)) (Real.pi / 2) ∧
        (0:ℝ) ∈ Set.Ioc (-Real.pi) Real.pi) ∧
      quat_to_eulerB321 (eulerB321_to_quat 0 0 0) = (0, 0, 0) := by
  have h1 : (0:ℝ) ∈ Set.Ioc (-Real.pi) Real.pi := by
    constructor <;> [linarith [Real.pi_pos]; linarith [Real.pi_pos]]
  have h2 : (0:ℝ) ∈ Set.Ioo (-(Real.pi / 2)) (Real.pi / 2) := by
    constructor <;> [linarith [Real.pi_pos]; linarith [Real.pi_pos]]
  exact ⟨⟨h1, h2, h1⟩, euler_quat_roundtrip 0 0 0 h1 h2 h1⟩

/-! ## C2: hover case of the position law -/

/-- Recovering the yaw angle from `from_Matrix` applied to a pure yaw
rotation matrix: the resulting quaternion has zero roll and pitch and the
original yaw. -/
theorem rz_from_matrix_euler (ψ : ℝ) (hψ : ψ ∈ Set.Ioc (-Real.pi) Real.pi) :
    quat_to_eulerB321 (Quat.from_Matrix
        ⟨Real.cos ψ, -Real.sin ψ, 0, Real.sin ψ, Real.cos ψ, 0, 0, 0, 1⟩)
      = (ψ, 0, 0) := by
  have hcs : Real.sin (ψ / 2) ^ 2 + Real.cos (ψ / 2) ^ 2 = 1 :=
    Real.sin_sq_add_cos_sq _
  have hsinψ : Real.sin ψ = 2 * Real.sin (ψ / 2) * Real.cos (ψ / 2) := by
    rw [← Real.sin_two_mul]
    congr 1
    ring
  have hcosψ : Real.cos ψ = 2 * Real.cos (ψ / 2) ^ 2 - 1 := by
    rw [← Real.cos_two_mul]
    congr 1
    ring
  have hc0 : 0 ≤ Real.cos (ψ / 2) := by
    apply Real.cos_nonneg_of_mem_Icc
    constructor
    · linarith [hψ.1]
    · linarith [hψ.2]
  simp only [Quat.from_Matrix]
  split_ifs with h1 h2 h3
  · -- trace-positive branch: cos(ψ/2) > 0
    have hcpos : 0 < Real.cos (ψ / 2) := by
      have hc2 : 1 / 4 < Real.cos (ψ / 2) ^ 2 := by nlinarith
      rcases lt_or_eq_of_le hc0 with h | h
      · exact h
      · rw [← h] at hc2
        norm_num at hc2
    have hcne : Real.cos (ψ / 2) ≠ 0 := ne_of_gt hcpos
    have hsqrt : Real.sqrt (Real.cos ψ + Real.cos ψ + 1 + 1)
        = 2 * Real.cos (ψ / 2) := by
      rw [show Real.cos ψ + Real.cos ψ + 1 + 1 = (2 * Real.cos (ψ / 2)) ^ 2 by
        nlinarith]
      exact Real.sqrt_sq (by linarith)
    have hquat : Quat.mk (Real.sqrt (Real.cos ψ + Real.cos ψ + 1 + 1) * 2 / 4)
        ((0 - 0) / (Real.sqrt (Real.cos ψ + Real.cos ψ + 1 + 1) * 2))
        ((0 - 0) / (Real.sqrt (Real.cos ψ + Real.cos ψ + 1 + 1) * 2))
        ((Real.sin ψ - -Real.sin ψ) / (Real.sqrt (Real.cos ψ + Real.cos ψ + 1 + 1) * 2))
        = ⟨Real.cos (ψ / 2), 0, 0, Real.sin (ψ / 2)⟩ := by
      rw [hsqrt, hsinψ]
      simp only [Quat.mk.injEq]
      refine ⟨by ring, by simp, by simp, ?_⟩
      field_simp
      ring
    rw [hquat, euler_of_wz]
    rw [show 2 * (Real.cos (ψ / 2) * Real.sin (ψ / 2)) = Real.sin ψ by
        rw [hsinψ]; ring,
      show 1 - 2 * Real.sin (ψ / 2) ^ 2 = Real.cos ψ by nlinarith,
      atan2_sin_cos hψ]
  · exact absurd h2.1 (lt_irrefl _)
  · exact absurd h3 (not_lt.mpr (Real.cos_le_one ψ))
  · -- bottom-right branch: sin(ψ/2) ≠ 0
    have htr : Real.cos ψ + Real.cos ψ + 1 ≤ 0 := le_of_not_lt h1
    have hs2 : 3 / 4 ≤ Real.sin (ψ / 2) ^ 2 := by nlinarith
    have hsne : Real.sin (ψ / 2) ≠ 0 := by
      intro h0
      rw [h0] at hs2
      norm_num at hs2
    have habs : |Real.sin (ψ / 2)| ≠ 0 := abs_ne_zero.mpr hsne
    have hsqrt : Real.sqrt (1 + 1 - Real.cos ψ - Real.cos ψ)
        = 2 * |Real.sin (ψ / 2)| := by
      rw [show (1:ℝ) + 1 - Real.cos ψ - Real.cos ψ
          = (2 * |Real.sin (ψ / 2)|) ^ 2 by
        rw [mul_pow, sq_abs]
        nlinarith]
      exact Real.sqrt_sq (by positivity)
    have hquat : Quat.mk
        ((Real.sin ψ - -Real.sin ψ) / (Real.sqrt (1 + 1 - Real.cos ψ - Real.cos ψ) * 2))
        ((0 + 0) / (Real.sqrt (1 + 1 - Real.cos ψ - Real.cos ψ) * 2))
        ((0 + 0) / (Real.sqrt (1 + 1 - Real.cos ψ - Real.cos ψ) * 2))
        (Real.sqrt (1 + 1 - Real.cos ψ - Real.cos ψ) * 2 / 4)
        = ⟨Real.sin (ψ / 2) * Real.cos (ψ / 2) / |Real.sin (ψ / 2)|, 0, 0,
            |Real.sin (ψ / 2)|⟩ := by
      rw [hsqrt, hsinψ]
      simp only [Quat.mk.injEq]
      refine ⟨?_, by simp, by simp, by ring⟩
      field_simp
      ring
    rw [hquat, euler_of_wz]
    rw [show 2 * (Real.sin (ψ / 2) * Real.cos (ψ / 2) / |Real.sin (ψ / 2)|
          * |Real.sin (ψ / 2)|) = Real.sin ψ by
        rw [hsinψ, div_mul_cancel₀ _ habs]; ring,
      show 1 - 2 * |Real.sin (ψ / 2)| ^ 2 = Real.cos ψ by
        rw [sq_abs]; nlinarith,
      atan2_sin_cos hψ]

theorem one_smul_vec (v : Vec3) : (1:ℝ) • v = v := by
  ext <;> simp

theorem cross_zW_xC (t : ℝ) :
    Vec3.cross ⟨0, 0, 1⟩ ⟨Real.cos t, Real.sin t, 0⟩
      = ⟨-Real.sin t, Real.cos t, 0⟩ := by
  simp [Vec3.cross]

theorem norm2_yB (t : ℝ) : (Vec3.mk (-Real.sin t) (Real.cos t) 0).norm2 = 1 := by
  unfold Vec3.norm2
  rw [show (-Real.sin t) ^ 2 + Real.cos t ^ 2 + (0:ℝ) ^ 2
      = Real.sin t ^ 2 + Real.cos t ^ 2 by ring,
    Real.sin_sq_add_cos_sq]
  exact Real.sqrt_one

theorem cross_yB_zW (t : ℝ) :
    Vec3.cross ⟨-Real.sin t, Real.cos t, 0⟩ ⟨0, 0, 1⟩
      = ⟨Real.cos t, Real.sin t, 0⟩ := by
  simp [Vec3.cross]

/-- C2: in the hover case — `p_w = pt_w`, desired acceleration zero, and body
velocity whose world-frame image equals the desired velocity — the position
law outputs thrust magnitude equal to the trim value and a desired quaternion
with zero roll and zero pitch whose yaw equals the camera orientation's yaw. -/
theorem position_control_hover (pt_w vt_w at_w : Vec3) (qc_wb : Quat)
    (p_w v_b : Vec3) (q_wb : Quat)
    (hp : p_w = pt_w) (ha : at_w = ⟨0, 0, 0⟩)
    (hv : (q_wb.to_Matrix).mulVec v_b = vt_w) :
    (position_control pt_w vt_w at_w qc_wb p_w v_b q_wb).1 = thrust_trim ∧
      quat_to_eulerB321 (position_control pt_w vt_w at_w qc_wb p_w v_b q_wb).2
        = ((quat_to_eulerB321 qc_wb).1, 0, 0) := by
  have hterm : pos_p_term pt_w vt_w at_w p_w v_b q_wb = ⟨0, 0, 0⟩ := by
    unfold pos_p_term
    rw [hp, ha, hv]
    ext <;> simp
  have hclamp : pos_p_term_clamped ⟨0, 0, 0⟩ = (⟨0, 0, 0⟩ : Vec3) := by
    unfold pos_p_term_clamped
    rw [if_neg]
    simp only [Vec3.norm2, p_norm_max]
    norm_num
  have hT : pos_T pt_w vt_w at_w p_w v_b q_wb = T0 := by
    unfold pos_T
    rw [hterm, hclamp]
    ext <;> simp [T0]
  have hzB : zB_of T0 = ⟨0, 0, 1⟩ := by
    unfold zB_of
    rw [if_pos (by rw [T0_norm2]; norm_num), T0_norm2]
    ext <;> simp [T0]
  constructor
  · simp only [position_control]
    rw [hT, T0_norm2]
    norm_num [thrust_trim]
  · simp only [position_control]
    rw [hT, hzB, cross_zW_xC, norm2_yB]
    rw [if_pos (show (1:ℝ) > 1e-3 by norm_num)]
    rw [show ((1:ℝ) / 1) = 1 by norm_num, one_smul_vec, cross_yB_zW]
    simp only [Mat3.ofCols]
    exact rz_from_matrix_euler _ (yaw_mem_Ioc qc_wb)

/-- C2 witness: hover at the origin with identity attitude and camera. -/
theorem position_control_hover_witness :
    ((⟨0, 0, 0⟩ : Vec3) = ⟨0, 0, 0⟩ ∧ (⟨0, 0, 0⟩ : Vec3) = ⟨0, 0, 0⟩ ∧
        (Quat.to_Matrix ⟨1, 0, 0, 0⟩).mulVec ⟨0, 0, 0⟩ = (⟨0, 0, 0⟩ : Vec3)) ∧
      ((position_control ⟨0, 0, 0⟩ ⟨0, 0, 0⟩ ⟨0, 0, 0⟩ ⟨1, 0, 0, 0⟩
            ⟨0, 0, 0⟩ ⟨0, 0, 0⟩ ⟨1, 0, 0, 0⟩).1 = thrust_trim ∧
        quat_to_eulerB321 (position_control ⟨0, 0, 0⟩ ⟨0, 0, 0⟩ ⟨0, 0, 0⟩
            ⟨1, 0, 0, 0⟩ ⟨0, 0, 0⟩ ⟨0, 0, 0⟩ ⟨1, 0, 0, 0⟩).2
          = ((quat_to_eulerB321 ⟨1, 0, 0, 0⟩).1, 0, 0)) := by
  have hv : (Quat.to_Matrix ⟨1, 0, 0, 0⟩).mulVec ⟨0, 0, 0⟩ = (⟨0, 0, 0⟩ : Vec3) := by
    simp [Quat.to_Matrix, Mat3.mulVec]
  exact ⟨⟨rfl, rfl, hv⟩,
    position_control_hover ⟨0, 0, 0⟩ ⟨0, 0, 0⟩ ⟨0, 0, 0⟩ ⟨1, 0, 0, 0⟩
      ⟨0, 0, 0⟩ ⟨0, 0, 0⟩ ⟨1, 0, 0, 0⟩ rfl rfl hv⟩

end RDD2
